import Mathlib

/-!
Shallow embedding of `tuicker` (src/main.rs), a terminal crypto price tracker:
fetch → parse → model → render pipeline plus the input-polling interaction loop.

Modelling conventions:
* Rust `f64` values are modelled as exact rationals (`Rat`).  Every numeric
  value appearing in the spec's examples is an exact decimal, so the rational
  model and IEEE-754 doubles agree on all inputs considered here.
* `HashMap<String, CoinGeckoData>` is modelled as an association list
  `List (String × CoinGeckoData)`; the list order stands for the map's
  (unspecified) iteration order.
* `serde_json::from_str::<HashMap<String, CoinGeckoData>>` is modelled by a
  JSON text parser (`parseVal`, fuel-bounded like serde's recursion limit)
  followed by a strict decoder (`decodeCoinMap`): both numeric fields are
  required, wrong types fail, unknown fields are ignored — serde's default
  behaviour for a struct without `deny_unknown_fields`.
* Terminal side effects (crossterm / ratatui calls in `main`) are modelled as
  an event trace (`TraceEv`), and `terminal.draw(ui)` as the pure function
  `ui` producing the three regions and their texts.
-/

namespace Tuicker

/-- Struct `CoinGeckoData` from src/main.rs: the two required numeric fields of one
entry of the API response. -/
structure CoinGeckoData where
  usd : Rat
  usd_24h_change : Rat
deriving Repr, DecidableEq

/-- Struct `Coin` from src/main.rs: the display-level asset record. -/
structure Coin where
  id : String
  name : String
  symbol : String
  current_price : Rat
  price_change_24h : Rat
deriving Repr, DecidableEq

/-- Round `|q| * 100` to the nearest integer (half away from zero), giving the
number of cents displayed by a 2-decimal fixed-point format: this is
`⌊|q| * 100 + 1/2⌋` written directly on the numerator and denominator so that
it evaluates by kernel reduction.  Rust formats an `f64` by rounding its exact
decimal expansion at the cut; no value in this development sits on a tie, so
the tie-breaking direction is immaterial. -/
def roundCents (q : Rat) : Nat :=
  (q.num.natAbs * 200 + q.den) / (2 * q.den)

/-- Multiplication by 100 in a kernel-reducible form; models the exact value
of `x * 100.0` in `Coin::change_24h_formatted`. -/
def mulHundred (q : Rat) : Rat :=
  mkRat (q.num * 100) q.den

/-- Two-digit zero-padded rendering of `n < 100`. -/
def twoDigits (n : Nat) : String :=
  if n < 10 then "0" ++ toString n else toString n

/-- The unsigned body of Rust's `{:.2}` formatting of a (rational-modelled)
float: integer part, a dot, two fraction digits. -/
def fixed2Body (q : Rat) : String :=
  let n := roundCents q
  toString (n / 100) ++ "." ++ twoDigits (n % 100)

/-- Rust `format!("{:.2}", q)`: sign only when negative. -/
def fmtFixed2 (q : Rat) : String :=
  (if q < 0 then "-" else "") ++ fixed2Body q

/-- Rust `format!("{:+.2}", q)`: explicit sign, `+` also at zero. -/
def fmtPlusFixed2 (q : Rat) : String :=
  (if q < 0 then "-" else "+") ++ fixed2Body q

/-- Method `Coin::price_formatted` from src/main.rs: `format!("${:.2}", current_price)`. -/
def Coin.price_formatted (c : Coin) : String :=
  "$" ++ fmtFixed2 c.current_price

/-- Method `Coin::change_24h_formatted` from src/main.rs:
`format!("{:+.2}%", price_change_24h * 100.0)`. -/
def Coin.change_24h_formatted (c : Coin) : String :=
  fmtPlusFixed2 (mulHundred c.price_change_24h) ++ "%"

/-- Method `Coin::is_up` from src/main.rs: `price_change_24h > 0.0` (the strict `f64`
comparison, via the primitive boolean order on `Rat`). -/
def Coin.is_up (c : Coin) : Bool :=
  Rat.blt 0 c.price_change_24h

/-- Character-wise uppercasing; models `str::to_uppercase` (the identifiers
this program uppercases are ASCII, where the two coincide).  Written over the
character list so that it evaluates by kernel reduction, unlike
`String.toUpper`. -/
def upperString (s : String) : String :=
  String.mk (s.data.map Char.toUpper)

/-- Function `convert_to_coins` from src/main.rs: a fold mirroring the `for … push`
loop. -/
def convert_to_coins (coin_map : List (String × CoinGeckoData)) : List Coin :=
  coin_map.foldl
    (fun coins p =>
      coins ++ [{ id := p.1, symbol := upperString p.1, name := p.1,
                  current_price := p.2.usd, price_change_24h := p.2.usd_24h_change }])
    []

/-- The record a single map entry is converted to. -/
def coinOfEntry (p : String × CoinGeckoData) : Coin :=
  { id := p.1, symbol := upperString p.1, name := p.1,
    current_price := p.2.usd, price_change_24h := p.2.usd_24h_change }

/-- A run of `n` spaces. -/
def spaces (n : Nat) : String :=
  String.mk (List.replicate n ' ')

/-- Rust left-aligned minimum-width padding, e.g. `{:6}` on a string: pad on
the right up to `w`; longer strings are NOT truncated. -/
def padRightTo (s : String) (w : Nat) : String :=
  s ++ spaces (w - s.length)

/-- Rust right-aligned minimum-width padding, e.g. `{:>10.2}` applied to an
already formatted number: pad on the left up to `w`. -/
def padLeftTo (s : String) (w : Nat) : String :=
  spaces (w - s.length) ++ s

/-- One body line of `format_coins` from src/main.rs:
`format!("{:6} {:12} ${:>10.2} {:>6.2}%", symbol, name, current_price, price_change_24h)`.
Note the last field formats `price_change_24h` itself (the raw fraction), not
`price_change_24h * 100`, and without the `+` flag. -/
def formatCoinLine (c : Coin) : String :=
  padRightTo c.symbol 6 ++ " " ++ padRightTo c.name 12 ++ " $" ++
    padLeftTo (fmtFixed2 c.current_price) 10 ++ " " ++
    padLeftTo (fmtFixed2 c.price_change_24h) 6 ++ "%"

/-- Function `format_coins` from src/main.rs: one line per coin, joined with `\n`. -/
def format_coins (coins : List Coin) : String :=
  String.intercalate "\n" (coins.map formatCoinLine)

/-! ### JSON values and the text parser modelling `serde_json::from_str` -/

/-- A JSON value. -/
inductive Json where
  | null
  | bool (b : Bool)
  | num (q : Rat)
  | str (s : String)
  | arr (elems : List Json)
  | obj (fields : List (String × Json))
deriving Repr

/-- JSON whitespace. -/
def isJsonWs (c : Char) : Bool :=
  c == ' ' || c == '\n' || c == '\t' || c == '\r'

/-- Drop leading JSON whitespace. -/
def skipWs : List Char → List Char
  | [] => []
  | c :: cs => if isJsonWs c then skipWs cs else c :: cs

/-- Split off the maximal leading run of decimal digits. -/
def takeDigits : List Char → List Char × List Char
  | [] => ([], [])
  | c :: cs =>
    if c.isDigit then
      let p := takeDigits cs
      (c :: p.1, p.2)
    else ([], c :: cs)

/-- Value of a digit string, most significant first. -/
def digitsToNat (ds : List Char) : Nat :=
  ds.foldl (fun a c => a * 10 + (c.toNat - 48)) 0

/-- Parse an optional `.digits` fraction part: returns the fraction's digit
value, the number of fraction digits, and the rest. -/
def parseFracDigits (cs : List Char) : Except String (Nat × Nat × List Char) :=
  match cs with
  | '.' :: r =>
    match takeDigits r with
    | ([], _) => .error "expected fraction digits"
    | (fds, r2) => .ok (digitsToNat fds, fds.length, r2)
  | _ => .ok (0, 0, cs)

/-- Parse an optional `e`/`E` exponent part: returns whether the exponent is
negative, its magnitude, and the rest. -/
def parseExpDigits (cs : List Char) : Except String (Bool × Nat × List Char) :=
  match cs with
  | c :: r =>
    if c == 'e' || c == 'E' then
      let p : Bool × List Char :=
        match r with
        | '+' :: r2 => (false, r2)
        | '-' :: r2 => (true, r2)
        | _ => (false, r)
      match takeDigits p.2 with
      | ([], _) => .error "expected exponent digits"
      | (eds, r2) => .ok (p.1, digitsToNat eds, r2)
    else .ok (false, 0, cs)
  | [] => .ok (false, 0, [])

/-- Parse a JSON number (optional minus, integer part, optional fraction and
exponent) into the exact rational it denotes, built with `mkRat` so that the
result evaluates by kernel reduction. -/
def parseNumber (cs : List Char) : Except String (Rat × List Char) :=
  let sp : Bool × List Char :=
    match cs with
    | '-' :: r => (true, r)
    | _ => (false, cs)
  match takeDigits sp.2 with
  | ([], _) => .error "invalid number"
  | (ints, cs2) => do
    let (fv, fl, cs3) ← parseFracDigits cs2
    let (eneg, e, cs4) ← parseExpDigits cs3
    let mant : Nat := digitsToNat ints * 10 ^ fl + fv
    let m : Int := if sp.1 then -(mant : Int) else (mant : Int)
    let q : Rat :=
      if eneg then mkRat m (10 ^ fl * 10 ^ e) else mkRat (m * 10 ^ e) (10 ^ fl)
    .ok (q, cs4)

/-- Translate a JSON escape character (no `\u` support; none of the inputs
considered here use it). -/
def escapeChar (c : Char) : Except String Char :=
  if c == '"' then .ok '"'
  else if c == '\\' then .ok '\\'
  else if c == '/' then .ok '/'
  else if c == 'n' then .ok '\n'
  else if c == 't' then .ok '\t'
  else if c == 'r' then .ok '\r'
  else if c == 'b' then .ok (Char.ofNat 8)
  else if c == 'f' then .ok (Char.ofNat 12)
  else .error "unsupported escape"

/-- Parse the remainder of a JSON string after the opening quote; returns the
content and the characters after the closing quote. -/
def parseStringChars : List Char → Except String (List Char × List Char)
  | [] => .error "unterminated string"
  | '"' :: rest => .ok ([], rest)
  | '\\' :: [] => .error "unterminated string"
  | '\\' :: e :: rest => do
    let c ← escapeChar e
    let p ← parseStringChars rest
    .ok (c :: p.1, p.2)
  | c :: rest => do
    let p ← parseStringChars rest
    .ok (c :: p.1, p.2)

/-- Match an expected literal tail (`rue`, `alse`, `ull`). -/
def expectChars : List Char → List Char → Except String (List Char)
  | [], cs => .ok cs
  | _ :: _, [] => .error "invalid literal"
  | e :: es, c :: cs => if c == e then expectChars es cs else .error "invalid literal"

mutual

/-- Parse one JSON value; `fuel` bounds recursion depth the way serde_json's
recursion limit does. -/
def parseVal : Nat → List Char → Except String (Json × List Char)
  | 0, _ => .error "recursion limit"
  | fuel + 1, cs =>
    match skipWs cs with
    | [] => .error "unexpected end of input"
    | c :: rest =>
      if c == '\x7b' then
        match skipWs rest with
        | '\x7d' :: r2 => .ok (Json.obj [], r2)
        | r2 => (parseMembers fuel r2).map (fun pr => (Json.obj pr.1, pr.2))
      else if c == '[' then
        match skipWs rest with
        | ']' :: r2 => .ok (Json.arr [], r2)
        | r2 => (parseElems fuel r2).map (fun pr => (Json.arr pr.1, pr.2))
      else if c == '"' then
        (parseStringChars rest).map (fun pr => (Json.str (String.mk pr.1), pr.2))
      else if c == 't' then
        (expectChars ['r', 'u', 'e'] rest).map (fun r2 => (Json.bool true, r2))
      else if c == 'f' then
        (expectChars ['a', 'l', 's', 'e'] rest).map (fun r2 => (Json.bool false, r2))
      else if c == 'n' then
        (expectChars ['u', 'l', 'l'] rest).map (fun r2 => (Json.null, r2))
      else
        (parseNumber (c :: rest)).map (fun pr => (Json.num pr.1, pr.2))

/-- Parse the members of a JSON object (positioned at the first key, object
known non-empty). -/
def parseMembers : Nat → List Char → Except String (List (String × Json) × List Char)
  | 0, _ => .error "recursion limit"
  | fuel + 1, cs =>
    match skipWs cs with
    | '"' :: rest => do
      let kp ← parseStringChars rest
      match skipWs kp.2 with
      | ':' :: r2 => do
        let vp ← parseVal fuel r2
        match skipWs vp.2 with
        | ',' :: r4 => do
          let mp ← parseMembers fuel r4
          .ok ((String.mk kp.1, vp.1) :: mp.1, mp.2)
        | '\x7d' :: r4 => .ok ([(String.mk kp.1, vp.1)], r4)
        | _ => .error "expected comma or closing brace"
      | _ => .error "expected colon"
    | _ => .error "expected string key"

/-- Parse the elements of a JSON array (positioned at the first element,
array known non-empty). -/
def parseElems : Nat → List Char → Except String (List Json × List Char)
  | 0, _ => .error "recursion limit"
  | fuel + 1, cs => do
    let vp ← parseVal fuel cs
    match skipWs vp.2 with
    | ',' :: r2 => do
      let ep ← parseElems fuel r2
      .ok (vp.1 :: ep.1, ep.2)
    | ']' :: r2 => .ok ([vp.1], r2)
    | _ => .error "expected comma or closing bracket"

end

/-- Parse a complete JSON document: one value, then only whitespace. -/
def parseJson (text : String) : Except String Json := do
  let p ← parseVal (text.toList.length + 1) text.toList
  if (skipWs p.2).isEmpty then .ok p.1 else .error "trailing characters"

/-! ### Strict decoding into `CoinGeckoData` (serde derive semantics) -/

/-- Numeric view of a JSON value. -/
def Json.asNum : Json → Option Rat
  | Json.num q => some q
  | _ => none

/-- Field lookup on a JSON value (first occurrence; `none` off objects). -/
def Json.lookupField : Json → String → Option Json
  | Json.obj fs, k => fs.lookup k
  | _, _ => none

/-- Decode one entry value into `CoinGeckoData`: both numeric fields required,
wrong types rejected, unknown fields ignored (serde default for a struct
without `deny_unknown_fields`). -/
def decodeCoinGeckoData (j : Json) : Except String CoinGeckoData :=
  match j with
  | Json.obj fs =>
    match (fs.lookup "usd").bind Json.asNum,
          (fs.lookup "usd_24h_change").bind Json.asNum with
    | some u, some c => .ok { usd := u, usd_24h_change := c }
    | _, _ => .error "missing or non-numeric required field"
  | _ => .error "expected object"

/-- Decode all entries of the top-level object; the first failing entry fails
the whole call (all-or-nothing, no partial map). -/
def decodeCoinMap : List (String × Json) → Except String (List (String × CoinGeckoData))
  | [] => .ok []
  | (k, v) :: rest => do
    let d ← decodeCoinGeckoData v
    let ds ← decodeCoinMap rest
    .ok ((k, d) :: ds)

/-- Function `parse_coin_response` from src/main.rs:
`serde_json::from_str::<HashMap<String, CoinGeckoData>>(json_text)`. -/
def parse_coin_response (json_text : String) :
    Except String (List (String × CoinGeckoData)) :=
  match parseJson json_text with
  | .error e => .error e
  | .ok (Json.obj fs) => decodeCoinMap fs
  | .ok _ => .error "expected a map at top level"

/-- An entry value carries both required fields with numeric values. -/
def hasRequiredFields (j : Json) : Prop :=
  ((Json.lookupField j "usd").bind Json.asNum).isSome = true ∧
  ((Json.lookupField j "usd_24h_change").bind Json.asNum).isSome = true

/-! ### Renderer (`ui` from src/main.rs) -/

/-- A rectangular terminal region (ratatui `Rect`). -/
structure Rect where
  x : Nat
  y : Nat
  width : Nat
  height : Nat
deriving Repr, DecidableEq

/-- Modelled from the spec: the external layout capability (ratatui
`Layout::default().direction(Vertical).constraints([Length(1), Min(1), Length(1)]).split(area)`),
an excluded collaborator "that lays out rectangular regions".  For an area of
height ≥ 3 the constraints determine the split uniquely: a 1-row strip at the
top, a 1-row strip at the bottom, and the body taking all remaining rows in
between. -/
def layoutVertical3 (area : Rect) : Rect × Rect × Rect :=
  let hh := min 1 area.height
  let fh := min 1 (area.height - hh)
  let bh := area.height - hh - fh
  (⟨area.x, area.y, area.width, hh⟩,
   ⟨area.x, area.y + hh, area.width, bh⟩,
   ⟨area.x, area.y + hh + bh, area.width, fh⟩)

/-- The observable output of one `ui` call: the three regions and the text
painted into each. -/
structure UiFrame where
  header_area : Rect
  header_title : String
  body_area : Rect
  body_text : String
  footer_area : Rect
  footer_text : String
deriving Repr, DecidableEq

/-- Function `ui` from src/main.rs: split the frame area into header/body/footer and
paint the title, the formatted coin lines (inside a bordered block), and the
quit hint.  A total function: rendering never fails. -/
def ui (area : Rect) (coins : List Coin) : UiFrame :=
  let chunks := layoutVertical3 area
  { header_area := chunks.1
    header_title := "Crypto Tracker"
    body_area := chunks.2.1
    body_text := format_coins coins
    footer_area := chunks.2.2
    footer_text := "Press \x27q\x27 to quit" }

/-! ### Events and the interaction loop (`main` from src/main.rs) -/

/-- crossterm `KeyCode` (the constructors relevant here; `Other` stands for
every remaining non-character key). -/
inductive KeyCode where
  | Char (c : Char)
  | Enter
  | Esc
  | Backspace
  | Other
deriving Repr, DecidableEq

/-- crossterm key modifiers. -/
structure KeyModifiers where
  shift : Bool
  control : Bool
  alt : Bool
deriving Repr, DecidableEq

/-- crossterm `KeyEventKind`. -/
inductive KeyEventKind where
  | Press
  | Repeat
  | Release
deriving Repr, DecidableEq

/-- crossterm `KeyEvent`. -/
structure KeyEvent where
  code : KeyCode
  modifiers : KeyModifiers
  kind : KeyEventKind
deriving Repr, DecidableEq

/-- crossterm `Event`. -/
inductive Event where
  | Key (k : KeyEvent)
  | Mouse
  | Resize (w h : Nat)
  | FocusGained
  | FocusLost
  | Paste (s : String)
deriving Repr, DecidableEq

/-- The quit test in `main`:
`if let Event::Key(key) = … { if key.code == KeyCode::Char('q') { break } }`.
Only the key code is inspected — never the modifiers or the kind. -/
def isQuitEvent (e : Event) : Bool :=
  match e with
  | Event.Key key => key.code == KeyCode.Char 'q'
  | _ => false

/-- Outcome of one `event::poll(100ms)` (+ `event::read` when ready):
`none` models a poll timeout, `some e` models a delivered event. -/
def quitPoll (p : Option Event) : Bool :=
  match p with
  | some e => isQuitEvent e
  | none => false

/-- Observable actions of `main`, in program order. -/
inductive TraceEv where
  | EnableRaw
  | EnterAlt
  | Fetch
  | Render (coins : List Coin)
  | Poll
  | DisableRaw
  | LeaveAlt
deriving Repr, DecidableEq

/-- The event loop of `main`, run against a script of poll outcomes: each
iteration draws, then polls; a quit key breaks the loop.  Returns `none` when
the script is exhausted before a quit key arrives (the real loop would keep
polling). -/
def loopTrace (coins : List Coin) : List (Option Event) → Option (List TraceEv)
  | [] => none
  | p :: rest =>
    if quitPoll p then some [TraceEv.Render coins, TraceEv.Poll]
    else (loopTrace coins rest).map
      (fun t => TraceEv.Render coins :: TraceEv.Poll :: t)

/-- Function `main` from src/main.rs as a trace function: raw mode is enabled and the
alternate screen entered, then `refresh_output` runs exactly once (its result
is the `fetchRes` argument); on fetch error the `?` operator returns
immediately — no cleanup actions are emitted — while on the quit path the
loop runs and the two cleanup actions follow it.  The boolean is `true` for
the `Ok(())` exit, `false` for an error return. -/
def mainRun (fetchRes : Except String (List Coin)) (script : List (Option Event)) :
    Option (List TraceEv × Bool) :=
  match fetchRes with
  | Except.error _ =>
    some ([TraceEv.EnableRaw, TraceEv.EnterAlt, TraceEv.Fetch], false)
  | Except.ok coins =>
    (loopTrace coins script).map
      (fun evs =>
        ([TraceEv.EnableRaw, TraceEv.EnterAlt, TraceEv.Fetch] ++ evs ++
          [TraceEv.DisableRaw, TraceEv.LeaveAlt], true))

/-- Number of renders in a trace. -/
def rendersOf (t : List TraceEv) : Nat :=
  t.countP (fun e =>
    match e with
    | TraceEv.Render _ => true
    | _ => false)

/-- Number of terminal-release invocations in a trace (the release procedure
is `disable_raw_mode` followed by leaving the alternate screen; we count its
first half, and state separately that the two halves agree). -/
def releasesOf (t : List TraceEv) : Nat :=
  t.count TraceEv.DisableRaw

/-- The raw response text of the spec's end-to-end scenario. -/
def rawResponseText : String :=
  "\x7b\"bitcoin\":\x7b\"usd\":11000.32,\"usd_24h_change\":-0.05\x7d,\"ethereum\":\x7b\"usd\":6000.23,\"usd_24h_change\":0.0\x7d\x7d"

/-- Decidable equality of `Except` results, used to evaluate parser outcomes
inside proofs by `decide`. -/
instance exceptDecEq {ε α : Type} [DecidableEq ε] [DecidableEq α] :
    DecidableEq (Except ε α) := fun a b =>
  match a, b with
  | .ok x, .ok y =>
    if h : x = y then .isTrue (by rw [h])
    else .isFalse (by intro hc; cases hc; exact h rfl)
  | .error x, .error y =>
    if h : x = y then .isTrue (by rw [h])
    else .isFalse (by intro hc; cases hc; exact h rfl)
  | .ok _, .error _ => .isFalse (by intro hc; cases hc)
  | .error _, .ok _ => .isFalse (by intro hc; cases hc)

/-! ### Bridging lemmas: the kernel-reducible forms used by the model agree
with the ordinary `Rat` operations and literals. -/

theorem mulHundred_eq (q : Rat) : mulHundred q = q * 100 := by
  rw [mulHundred, Rat.mkRat_eq_div]
  push_cast
  conv_rhs => rw [← Rat.num_div_den q]
  ring

theorem lit_11000_32 : (mkRat 1100032 100 : Rat) = 11000.32 := by
  rw [Rat.mkRat_eq_div]; norm_num

theorem lit_6000_23 : (mkRat 600023 100 : Rat) = 6000.23 := by
  rw [Rat.mkRat_eq_div]; norm_num

theorem lit_neg_0_05 : (mkRat (-5) 100 : Rat) = -0.05 := by
  rw [Rat.mkRat_eq_div]; norm_num

theorem lit_0_3333 : (mkRat 3333 10000 : Rat) = 0.3333 := by
  rw [Rat.mkRat_eq_div]; norm_num

/-! ### Helper lemmas -/

theorem convert_foldl (m : List (String × CoinGeckoData))
    (acc : List Coin) :
    m.foldl
      (fun coins p =>
        coins ++ [{ id := p.1, symbol := upperString p.1, name := p.1,
                    current_price := p.2.usd,
                    price_change_24h := p.2.usd_24h_change }])
      acc = acc ++ m.map coinOfEntry := by
  induction m generalizing acc with
  | nil => simp
  | cons p rest ih => simp [ih, coinOfEntry]

theorem convert_eq_map (m : List (String × CoinGeckoData)) :
    convert_to_coins m = m.map coinOfEntry := by
  rw [convert_to_coins, convert_foldl]; rfl

/-! ### Claims -/

/-- C5: the pure formatting helpers: price formatting yields a 2-decimal
dollar amount (11000.32 → "$11000.32", 0 → "$0.00"); change formatting yields
the fractional change × 100 with 2 decimals and an explicit sign even at zero
(-0.05 → "-5.00%", 0 → "+0.00%", 0.3333 → "+33.33%"). -/
theorem formatting_helpers_spec :
    Coin.price_formatted
      { id := "bitcoin", name := "bitcoin", symbol := "BITCOIN",
        current_price := 11000.32, price_change_24h := 0 } = "$11000.32" ∧
    Coin.price_formatted
      { id := "a", name := "a", symbol := "A",
        current_price := 0, price_change_24h := 0 } = "$0.00" ∧
    Coin.change_24h_formatted
      { id := "a", name := "a", symbol := "A",
        current_price := 0, price_change_24h := -0.05 } = "-5.00%" ∧
    Coin.change_24h_formatted
      { id := "a", name := "a", symbol := "A",
        current_price := 0, price_change_24h := 0 } = "+0.00%" ∧
    Coin.change_24h_formatted
      { id := "a", name := "a", symbol := "A",
        current_price := 0, price_change_24h := 0.3333 } = "+33.33%" := by
  refine ⟨?_, ?_, ?_, ?_, ?_⟩
  · rw [← lit_11000_32]; decide
  · decide
  · rw [← lit_neg_0_05]; decide
  · decide
  · rw [← lit_0_3333]; decide

/-- C6: `is_up` is true iff `price_change_24h` is strictly positive; zero and
negative changes are not "up". -/
theorem is_up_iff (c : Coin) : c.is_up = true ↔ 0 < c.price_change_24h :=
  Iff.rfl

/-- C4: conversion produces exactly one record per map entry, in iteration
order, with id and name the entry's key, symbol the uppercased key, and the
two numeric fields copied verbatim; being a Lean function of the whole map it
is total, pure and never fails. -/
theorem convert_to_coins_spec (m : List (String × CoinGeckoData)) :
    convert_to_coins m = m.map coinOfEntry ∧
    (convert_to_coins m).length = m.length ∧
    ∀ p : String × CoinGeckoData,
      (coinOfEntry p).id = p.1 ∧
      (coinOfEntry p).symbol = upperString p.1 ∧
      (coinOfEntry p).name = p.1 ∧
      (coinOfEntry p).current_price = p.2.usd ∧
      (coinOfEntry p).price_change_24h = p.2.usd_24h_change := by
  refine ⟨convert_eq_map m, ?_, ?_⟩
  · rw [convert_eq_map m, List.length_map]
  · intro p
    exact ⟨rfl, rfl, rfl, rfl, rfl⟩

theorem decodeCoinGeckoData_ok_iff (j : Json) :
    (∃ d, decodeCoinGeckoData j = Except.ok d) ↔ hasRequiredFields j := by
  cases j with
  | obj fs =>
    simp only [decodeCoinGeckoData, hasRequiredFields, Json.lookupField]
    cases h1 : (fs.lookup "usd").bind Json.asNum with
    | none => simp [h1]
    | some u =>
      cases h2 : (fs.lookup "usd_24h_change").bind Json.asNum with
      | none => simp [h1, h2]
      | some c => simp [h1, h2]
  | null => simp [decodeCoinGeckoData, hasRequiredFields, Json.lookupField]
  | bool b => simp [decodeCoinGeckoData, hasRequiredFields, Json.lookupField]
  | num q => simp [decodeCoinGeckoData, hasRequiredFields, Json.lookupField]
  | str s => simp [decodeCoinGeckoData, hasRequiredFields, Json.lookupField]
  | arr es => simp [decodeCoinGeckoData, hasRequiredFields, Json.lookupField]

theorem decodeCoinMap_ok_iff (fs : List (String × Json)) :
    (∃ m, decodeCoinMap fs = Except.ok m) ↔
      ∀ k j, (k, j) ∈ fs → hasRequiredFields j := by
  induction fs with
  | nil => simp [decodeCoinMap]
  | cons p rest ih =>
    obtain ⟨k, v⟩ := p
    simp only [decodeCoinMap]
    constructor
    · rintro ⟨m, hm⟩
      cases hd : decodeCoinGeckoData v with
      | error e => rw [hd] at hm; cases hm
      | ok d =>
        rw [hd] at hm
        cases hr : decodeCoinMap rest with
        | error e => rw [hr] at hm; cases hm
        | ok ds =>
          intro k2 j2 hmem
          rcases List.mem_cons.mp hmem with heq | htl
          · cases heq
            exact (decodeCoinGeckoData_ok_iff v).mp ⟨d, hd⟩
          · exact (ih.mp ⟨ds, hr⟩) k2 j2 htl
    · intro hall
      obtain ⟨d, hd⟩ := (decodeCoinGeckoData_ok_iff v).mpr
        (hall k v (List.mem_cons_self _ _))
      obtain ⟨ds, hr⟩ := ih.mpr (fun k2 j2 hmem => hall k2 j2 (List.mem_cons_of_mem _ hmem))
      refine ⟨(k, d) :: ds, ?_⟩
      rw [hd, hr]
      rfl

/-- C3: parsing is strict and all-or-nothing.  The top-level decode succeeds
exactly when every entry carries both required numeric fields (so unknown
extra fields never cause failure, and a missing or wrongly-typed field fails
the whole call); a quote map is produced only when the whole text parsed as a
JSON object and every entry decoded — in particular malformed text never
yields a (partial) map, only an error; and the concrete shapes named by the
spec behave accordingly. -/
theorem parse_strict_spec :
    (∀ fs : List (String × Json),
      (∃ m, decodeCoinMap fs = Except.ok m) ↔
        ∀ k j, (k, j) ∈ fs → hasRequiredFields j) ∧
    (∀ text m, parse_coin_response text = Except.ok m →
      ∃ fs, parseJson text = Except.ok (Json.obj fs) ∧ decodeCoinMap fs = Except.ok m) ∧
    (∃ e, parse_coin_response "\x7b\"bitcoin\":\x7b\"usd\":1.0\x7d\x7d" = Except.error e) ∧
    (∃ e, parse_coin_response
      "\x7b\"bitcoin\":\x7b\"usd\":\"abc\",\"usd_24h_change\":0.1\x7d\x7d" = Except.error e) ∧
    (∃ e, parse_coin_response "\x7b\"bitcoin\":" = Except.error e) ∧
    (∃ e, parse_coin_response "not json" = Except.error e) ∧
    parse_coin_response
        "\x7b\"bitcoin\":\x7b\"usd\":1.0,\"usd_24h_change\":2.5,\"extra\":\"x\"\x7d\x7d" =
      Except.ok [("bitcoin", { usd := 1, usd_24h_change := mkRat 25 10 })] := by
  refine ⟨decodeCoinMap_ok_iff, ?_, ?_, ?_, ?_, ?_, ?_⟩
  · intro text m hm
    rw [parse_coin_response] at hm
    cases hj : parseJson text with
    | error e => rw [hj] at hm; cases hm
    | ok j =>
      rw [hj] at hm
      cases j with
      | obj fs => exact ⟨fs, rfl, hm⟩
      | null => cases hm
      | bool b => cases hm
      | num q => cases hm
      | str s => cases hm
      | arr es => cases hm
  · exact ⟨"missing or non-numeric required field", by decide⟩
  · exact ⟨"missing or non-numeric required field", by decide⟩
  · exact ⟨"unexpected end of input", by decide⟩
  · exact ⟨"invalid literal", by decide⟩
  · decide

/-- Witness for C3: the strict-decode equivalence applied at a concrete
two-field entry, and the ok-only-via-full-decode conjunct applied at a
concrete well-formed text. -/
theorem parse_strict_spec_witness :
    (∃ m, decodeCoinMap
      [("bitcoin", Json.obj [("usd", Json.num 1), ("usd_24h_change", Json.num 2)])] =
        Except.ok m) ∧
    (∃ fs, parseJson "\x7b\"a\":\x7b\"usd\":1,\"usd_24h_change\":2\x7d\x7d" =
        Except.ok (Json.obj fs) ∧
      decodeCoinMap fs = Except.ok [("a", { usd := 1, usd_24h_change := 2 })]) := by
  constructor
  · exact (parse_strict_spec.1 _).mpr (by intro k j hm; simp at hm; rw [hm.2]; exact ⟨rfl, rfl⟩)
  · exact parse_strict_spec.2.1 "\x7b\"a\":\x7b\"usd\":1,\"usd_24h_change\":2\x7d\x7d"
      [("a", { usd := 1, usd_24h_change := 2 })] (by decide)

/-- C2 (the code evaluated at the spec's end-to-end input): the response text
parses to the two expected quotes and the two records carry symbols
"BITCOIN"/"ETHEREUM", but the rendered body rows are
"BITCOIN bitcoin      $  11000.32  -0.05%" and
"ETHEREUM ethereum     $   6000.23   0.00%": `format_coins` formats the raw
change fraction (no ×100 scaling, no explicit plus sign), so the rows show
"-0.05%" and "0.00%" instead of the spec's "-5.00%"/"+0.00%", and the
symbols overflow their width-6 column so the columns of the two rows do not
align. -/
theorem pipeline_end_to_end_actual :
    parse_coin_response rawResponseText =
      Except.ok [("bitcoin", { usd := 11000.32, usd_24h_change := -0.05 }),
                 ("ethereum", { usd := 6000.23, usd_24h_change := 0 })] ∧
    (convert_to_coins
      [("bitcoin", { usd := 11000.32, usd_24h_change := -0.05 }),
       ("ethereum", { usd := 6000.23, usd_24h_change := 0 })]).map Coin.symbol =
      ["BITCOIN", "ETHEREUM"] ∧
    format_coins (convert_to_coins
      [("bitcoin", { usd := 11000.32, usd_24h_change := -0.05 }),
       ("ethereum", { usd := 6000.23, usd_24h_change := 0 })]) =
      "BITCOIN bitcoin      $  11000.32  -0.05%\nETHEREUM ethereum     $   6000.23   0.00%" := by
  refine ⟨?_, ?_, ?_⟩
  · rw [← lit_11000_32, ← lit_neg_0_05, ← lit_6000_23]; decide
  · rw [← lit_11000_32, ← lit_neg_0_05, ← lit_6000_23]; decide
  · rw [← lit_11000_32, ← lit_neg_0_05, ← lit_6000_23]; decide

/-- C8: the renderer splits the area into a 1-row header, a body of all
remaining rows (at least 1 when the area is at least 3 rows high), and a
1-row footer, in that fixed order; it is a total function, and an empty
record list still produces the header, the footer, and an empty body. -/
theorem ui_layout_spec (area : Rect) (coins : List Coin)
    (h : 3 ≤ area.height) :
    (ui area coins).header_area = ⟨area.x, area.y, area.width, 1⟩ ∧
    (ui area coins).body_area = ⟨area.x, area.y + 1, area.width, area.height - 2⟩ ∧
    (ui area coins).footer_area = ⟨area.x, area.y + (area.height - 1), area.width, 1⟩ ∧
    1 ≤ (ui area coins).body_area.height ∧
    (ui area coins).header_title = "Crypto Tracker" ∧
    (ui area coins).footer_text = "Press \x27q\x27 to quit" ∧
    (ui area []).body_text = "" := by
  refine ⟨?_, ?_, ?_, ?_, rfl, rfl, rfl⟩
  · simp [ui, layoutVertical3, Rect.mk.injEq]
    omega
  · simp [ui, layoutVertical3, Rect.mk.injEq]
    omega
  · simp [ui, layoutVertical3, Rect.mk.injEq]
    omega
  · simp [ui, layoutVertical3]
    omega

/-- Witness for C8: the layout theorem applied to a concrete 80×24 area and
the empty record list. -/
theorem ui_layout_spec_witness :
    (ui ⟨0, 0, 80, 24⟩ []).header_area = ⟨0, 0, 80, 1⟩ ∧
    (ui ⟨0, 0, 80, 24⟩ []).body_area = ⟨0, 1, 80, 22⟩ ∧
    (ui ⟨0, 0, 80, 24⟩ []).footer_area = ⟨0, 23, 80, 1⟩ ∧
    (ui ⟨0, 0, 80, 24⟩ []).body_text = "" := by
  obtain ⟨h1, h2, h3, _, _, _, h7⟩ := ui_layout_spec ⟨0, 0, 80, 24⟩ [] (by decide)
  exact ⟨h1, h2, h3, h7⟩

/-- C10: the quit test fires exactly on key events whose code is the
character `q`, whatever the modifiers and the event kind (so Ctrl+q also
quits); an uppercase `Q`, any other key, and every non-key event leave the
loop running. -/
theorem quit_key_spec :
    (∀ mods kind, isQuitEvent (Event.Key ⟨KeyCode.Char 'q', mods, kind⟩) = true) ∧
    (∀ e, isQuitEvent e = true → ∃ key, e = Event.Key key ∧ key.code = KeyCode.Char 'q') ∧
    (∀ mods kind c, c ≠ 'q' →
      isQuitEvent (Event.Key ⟨KeyCode.Char c, mods, kind⟩) = false) ∧
    (∀ mods kind, isQuitEvent (Event.Key ⟨KeyCode.Enter, mods, kind⟩) = false) ∧
    isQuitEvent Event.Mouse = false ∧
    (∀ w h, isQuitEvent (Event.Resize w h) = false) := by
  refine ⟨?_, ?_, ?_, ?_, rfl, ?_⟩
  · intro mods kind
    simp [isQuitEvent]
  · intro e he
    cases e with
    | Key key =>
      refine ⟨key, rfl, ?_⟩
      simpa [isQuitEvent] using he
    | Mouse => cases he
    | Resize w h => cases he
    | FocusGained => cases he
    | FocusLost => cases he
    | Paste s => cases he
  · intro mods kind c hc
    simp [isQuitEvent, hc]
  · intro mods kind
    rfl
  · intro w h
    rfl

/-- Witness for C10: Ctrl+q (a modified key event) quits; an uppercase Q does
not; the characterization applied at a concrete quit event. -/
theorem quit_key_spec_witness :
    isQuitEvent (Event.Key ⟨KeyCode.Char 'q', ⟨false, true, false⟩, KeyEventKind.Press⟩) = true ∧
    isQuitEvent (Event.Key ⟨KeyCode.Char 'Q', ⟨true, false, false⟩, KeyEventKind.Press⟩) = false ∧
    ∃ key, Event.Key ⟨KeyCode.Char 'q', ⟨false, false, false⟩, KeyEventKind.Release⟩ =
      Event.Key key ∧ key.code = KeyCode.Char 'q' := by
  refine ⟨?_, ?_, ?_⟩
  · exact quit_key_spec.1 ⟨false, true, false⟩ KeyEventKind.Press
  · exact quit_key_spec.2.2.1 ⟨true, false, false⟩ KeyEventKind.Press 'Q' (by decide)
  · exact quit_key_spec.2.1 _ (by decide)

theorem loopTrace_mem (coins : List Coin) (script : List (Option Event))
    (evs : List TraceEv) (h : loopTrace coins script = some evs) :
    ∀ x ∈ evs, x = TraceEv.Render coins ∨ x = TraceEv.Poll := by
  induction script generalizing evs with
  | nil => cases h
  | cons p rest ih =>
    rw [loopTrace] at h
    by_cases hq : quitPoll p = true
    · rw [if_pos hq] at h
      injection h with h2
      subst h2
      intro x hx
      rcases List.mem_cons.mp hx with h3 | h3
      · exact Or.inl h3
      · exact Or.inr (by simpa using h3)
    · rw [if_neg hq] at h
      cases hr : loopTrace coins rest with
      | none => rw [hr] at h; cases h
      | some t =>
        rw [hr] at h
        injection h with h2
        subst h2
        intro x hx
        rcases List.mem_cons.mp hx with h3 | h3
        · exact Or.inl h3
        · rcases List.mem_cons.mp h3 with h4 | h4
          · exact Or.inr h4
          · exact ih t hr x h4

/-- C1 (the code evaluated on both exit paths): when the loop exits via the
quit key the release procedure (disable raw mode, leave the alternate screen)
runs exactly once; but when the initial refresh fails, `?` propagates the
error and no release action is emitted at all — zero, not the exactly-once
the spec demands on every exit path. -/
theorem main_release_paths :
    (∀ coins script trace b,
      mainRun (Except.ok coins) script = some (trace, b) →
        releasesOf trace = 1 ∧ trace.count TraceEv.LeaveAlt = 1 ∧ b = true) ∧
    (∀ err script trace b,
      mainRun (Except.error err) script = some (trace, b) →
        releasesOf trace = 0 ∧ trace.count TraceEv.LeaveAlt = 0 ∧ b = false) := by
  constructor
  · intro coins script trace b h
    rw [mainRun] at h
    cases hl : loopTrace coins script with
    | none => rw [hl] at h; cases h
    | some evs =>
      rw [hl] at h
      injection h with h2
      injection h2 with h3 h4
      subst h3
      refine ⟨?_, ?_, h4.symm⟩
      · have hz : evs.count TraceEv.DisableRaw = 0 := by
          rw [List.count_eq_zero]
          intro hmem
          rcases loopTrace_mem coins script evs hl _ hmem with h5 | h5 <;> cases h5
        simp [releasesOf, List.count_append, hz]
      · have hz : evs.count TraceEv.LeaveAlt = 0 := by
          rw [List.count_eq_zero]
          intro hmem
          rcases loopTrace_mem coins script evs hl _ hmem with h5 | h5 <;> cases h5
        simp [List.count_append, hz]
  · intro err script trace b h
    rw [mainRun] at h
    injection h with h2
    injection h2 with h3 h4
    subst h3
    exact ⟨by decide, by decide, h4.symm⟩

/-- Witness for C1: the two sides of the theorem at a one-poll quit script
and at a failed fetch. -/
theorem main_release_paths_witness :
    (releasesOf [TraceEv.EnableRaw, TraceEv.EnterAlt, TraceEv.Fetch,
        TraceEv.Render [], TraceEv.Poll, TraceEv.DisableRaw, TraceEv.LeaveAlt] = 1) ∧
    (releasesOf [TraceEv.EnableRaw, TraceEv.EnterAlt, TraceEv.Fetch] = 0) := by
  constructor
  · exact (main_release_paths.1 []
      [some (Event.Key ⟨KeyCode.Char 'q', ⟨false, false, false⟩, KeyEventKind.Press⟩)]
      _ true (by decide)).1
  · exact (main_release_paths.2 "network error" []
      _ false (by decide)).1

/-- C9: every run performs exactly one fetch; it happens right after the two
acquisition steps and before any render, and every render in the run paints
exactly the record list the initial refresh produced. -/
theorem fetch_once_spec (fetchRes : Except String (List Coin))
    (script : List (Option Event)) (trace : List TraceEv) (b : Bool)
    (h : mainRun fetchRes script = some (trace, b)) :
    trace.count TraceEv.Fetch = 1 ∧
    trace.take 3 = [TraceEv.EnableRaw, TraceEv.EnterAlt, TraceEv.Fetch] ∧
    ∀ cs, TraceEv.Render cs ∈ trace → fetchRes = Except.ok cs := by
  cases fetchRes with
  | error err =>
    rw [mainRun] at h
    injection h with h2
    injection h2 with h3 h4
    subst h3
    refine ⟨by decide, by decide, ?_⟩
    intro cs hmem
    simp at hmem
  | ok coins =>
    rw [mainRun] at h
    cases hl : loopTrace coins script with
    | none => rw [hl] at h; cases h
    | some evs =>
      rw [hl] at h
      injection h with h2
      injection h2 with h3 h4
      subst h3
      have hz : evs.count TraceEv.Fetch = 0 := by
        rw [List.count_eq_zero]
        intro hmem
        rcases loopTrace_mem coins script evs hl _ hmem with h5 | h5 <;> cases h5
      refine ⟨by simp [List.count_append, hz], by simp, ?_⟩
      intro cs hmem
      simp only [List.append_assoc, List.mem_append] at hmem
      rcases hmem with h5 | h6 | h7
      · simp at h5
      · rcases loopTrace_mem coins script evs hl _ h6 with h8 | h8
        · injection h8 with h9
          rw [h9]
        · cases h8
      · simp at h7

/-- Witness for C9: the theorem applied to a successful one-poll run. -/
theorem fetch_once_spec_witness :
    ([TraceEv.EnableRaw, TraceEv.EnterAlt, TraceEv.Fetch,
        TraceEv.Render [], TraceEv.Poll, TraceEv.DisableRaw,
        TraceEv.LeaveAlt].count TraceEv.Fetch = 1) ∧
    (∀ cs, TraceEv.Render cs ∈ [TraceEv.EnableRaw, TraceEv.EnterAlt, TraceEv.Fetch,
        TraceEv.Render ([] : List Coin), TraceEv.Poll, TraceEv.DisableRaw,
        TraceEv.LeaveAlt] → (Except.ok ([] : List Coin) : Except String (List Coin)) = Except.ok cs) := by
  have h := fetch_once_spec (Except.ok ([] : List Coin))
    [some (Event.Key ⟨KeyCode.Char 'q', ⟨false, false, false⟩, KeyEventKind.Press⟩)]
    [TraceEv.EnableRaw, TraceEv.EnterAlt, TraceEv.Fetch, TraceEv.Render [],
      TraceEv.Poll, TraceEv.DisableRaw, TraceEv.LeaveAlt]
    true (by decide)
  exact ⟨h.1, h.2.2⟩

/-- C7: if the quit key first arrives at poll position `n` (0-indexed: there
are `n` earlier polls, all non-quit or timeouts, which keep the loop in
Running), the loop performs exactly `n + 1` renders — one per iteration, each
followed by its poll — and then exits. -/
theorem loop_renders_spec (coins : List Coin) (script : List (Option Event))
    (n : Nat) (h1 : n < script.length)
    (h2 : quitPoll (script.get ⟨n, h1⟩) = true)
    (h3 : ∀ m (hm : m < n), quitPoll (script.get ⟨m, Nat.lt_trans hm h1⟩) = false) :
    ∃ t, loopTrace coins script = some t ∧ rendersOf t = n + 1 := by
  induction script generalizing n with
  | nil => cases h1
  | cons p rest ih =>
    cases n with
    | zero =>
      refine ⟨[TraceEv.Render coins, TraceEv.Poll], ?_, by simp [rendersOf]⟩
      have hp : quitPoll p = true := h2
      rw [loopTrace, if_pos hp]
    | succ m =>
      have hp : quitPoll p = false := h3 0 (Nat.succ_pos m)
      have h1r : m < rest.length := Nat.lt_of_succ_lt_succ h1
      obtain ⟨t, ht, hr⟩ := ih m h1r h2
        (fun m2 hm2 => h3 (m2 + 1) (Nat.succ_lt_succ hm2))
      refine ⟨TraceEv.Render coins :: TraceEv.Poll :: t, ?_, ?_⟩
      · rw [loopTrace, if_neg (by rw [hp]; exact Bool.false_ne_true), ht]
        rfl
      · simp [rendersOf] at hr ⊢
        omega

/-- Witness for C7: a timeout poll followed by the quit key at position 1
yields exactly 2 renders. -/
theorem loop_renders_spec_witness :
    ∃ t, loopTrace []
        [none, some (Event.Key ⟨KeyCode.Char 'q', ⟨false, false, false⟩, KeyEventKind.Press⟩)] =
      some t ∧ rendersOf t = 2 := by
  have h1 : 1 < ([none,
      some (Event.Key ⟨KeyCode.Char 'q', ⟨false, false, false⟩, KeyEventKind.Press⟩)] :
        List (Option Event)).length := by decide
  refine loop_renders_spec [] _ 1 h1 ?_ ?_
  · show quitPoll (some (Event.Key
      ⟨KeyCode.Char 'q', ⟨false, false, false⟩, KeyEventKind.Press⟩)) = true
    rfl
  intro m hm
  have hm0 : m = 0 := by omega
  subst hm0
  show quitPoll none = false
  rfl

end Tuicker
